import Mathlib

/-!
Verification of the SkillFormer multi-view video classification pipeline
(`model.py`) against its natural-language specification.

The Python source is shallowly embedded: machine floats are modelled as
exact rationals, numpy arrays as lists, tensors as functions out of `Fin`,
and transcendental float functions (exp, sqrt, gelu, sigmoid) are abstract
function parameters so every definition stays computable.  Randomness
(`np.random.randint`) is modelled by an explicit draw parameter.
-/

namespace SkillFormer

/-- Truncation toward zero, the semantics of numpy `astype(np.int64)` and
Python `int()` on a float value: floor for non-negative values, ceiling for
negative ones. -/
def truncQ (q : ℚ) : ℤ :=
  if 0 ≤ q then ⌊q⌋ else ⌈q⌉

/-- `np.clip(x, lo, hi)` on a scalar: numpy computes
`minimum(hi, maximum(x, lo))`, so when `lo > hi` the result is `hi`. -/
def clipQ (lo hi x : ℚ) : ℚ :=
  min hi (max lo x)

/-- `np.linspace(a, b, num)`: `num` evenly spaced samples from `a` to `b`
inclusive; for `num = 1` the single sample is `a`. -/
def linspaceQ (a b : ℚ) (num : ℕ) : List ℚ :=
  (List.range num).map
    (fun (i : ℕ) => if num ≤ 1 then a else a + (b - a) * (i : ℚ) / ((num : ℚ) - 1))

/-- `converted_len = int(clip_len * frame_sample_rate)` in
`sample_frame_indices`. -/
def convertedLen (clipLen frameSampleRate : ℕ) : ℕ :=
  clipLen * frameSampleRate

/-- `end_idx` in `sample_frame_indices`: when `seg_len > converted_len` it is
`np.random.randint(converted_len, seg_len)`, a uniform draw from
`[converted_len, seg_len)`, modelled by the draw parameter `r` reduced modulo
the width of the interval (every value of the interval is realized by some
`r`); otherwise it is `seg_len - 1`. -/
def endIdxD (clipLen frameSampleRate segLen r : ℕ) : ℤ :=
  if (convertedLen clipLen frameSampleRate : ℤ) < (segLen : ℤ) then
    (convertedLen clipLen frameSampleRate : ℤ) + (r % (segLen - convertedLen clipLen frameSampleRate) : ℕ)
  else (segLen : ℤ) - 1

/-- `start_idx = max(end_idx - converted_len, 0)` in `sample_frame_indices`. -/
def startIdxD (clipLen frameSampleRate segLen r : ℕ) : ℤ :=
  max (endIdxD clipLen frameSampleRate segLen r - convertedLen clipLen frameSampleRate) 0

/-- `sample_frame_indices(clip_len, frame_sample_rate, seg_len)` from
`model.py`: `indices = np.linspace(start_idx, end_idx, num=clip_len)`,
then `np.clip(indices, start_idx, end_idx - 1).astype(np.int64)`. -/
def sampleFrameIndices (clipLen frameSampleRate segLen r : ℕ) : List ℤ :=
  (linspaceQ (startIdxD clipLen frameSampleRate segLen r : ℚ)
      (endIdxD clipLen frameSampleRate segLen r : ℚ) clipLen).map
    (fun q => truncQ (clipQ (startIdxD clipLen frameSampleRate segLen r : ℚ)
      ((endIdxD clipLen frameSampleRate segLen r : ℚ) - 1) q))

lemma endIdxD_bounds (clipLen rate segLen r : ℕ)
    (hc : 1 ≤ clipLen) (hr : 1 ≤ rate) (hs : 2 ≤ segLen) :
    1 ≤ endIdxD clipLen rate segLen r ∧ endIdxD clipLen rate segLen r ≤ (segLen : ℤ) - 1 := by
  unfold endIdxD
  split
  · rename_i hlt
    have hcv : 1 ≤ convertedLen clipLen rate := Nat.one_le_iff_ne_zero.mpr (by
      simp [convertedLen]; omega)
    have hlt2 : convertedLen clipLen rate < segLen := by exact_mod_cast hlt
    have hmod : r % (segLen - convertedLen clipLen rate) < segLen - convertedLen clipLen rate :=
      Nat.mod_lt _ (by omega)
    constructor
    · have : (1 : ℤ) ≤ (convertedLen clipLen rate : ℤ) := by exact_mod_cast hcv
      omega
    · have h1 : ((r % (segLen - convertedLen clipLen rate) : ℕ) : ℤ)
          < ((segLen - convertedLen clipLen rate : ℕ) : ℤ) := by exact_mod_cast hmod
      have h2 : ((segLen - convertedLen clipLen rate : ℕ) : ℤ)
          = (segLen : ℤ) - (convertedLen clipLen rate : ℤ) := by
        have := Nat.le_of_lt hlt2
        omega
      omega
  · omega

lemma startIdxD_bounds (clipLen rate segLen r : ℕ)
    (hc : 1 ≤ clipLen) (hr : 1 ≤ rate) (hs : 2 ≤ segLen) :
    0 ≤ startIdxD clipLen rate segLen r ∧
      startIdxD clipLen rate segLen r ≤ endIdxD clipLen rate segLen r - 1 := by
  have he := endIdxD_bounds clipLen rate segLen r hc hr hs
  have hcv : 1 ≤ convertedLen clipLen rate := Nat.one_le_iff_ne_zero.mpr (by
    simp [convertedLen]; omega)
  have hcv2 : (1 : ℤ) ≤ (convertedLen clipLen rate : ℤ) := by exact_mod_cast hcv
  unfold startIdxD
  constructor
  · exact le_max_right _ _
  · apply max_le <;> omega

/-- Truncation toward zero agrees with the floor on the clipped values, once
the lower clip bound is a non-negative integer. -/
lemma truncQ_clipQ_nonneg (s e : ℤ) (hs0 : 0 ≤ s) (hse : s ≤ e - 1) (q : ℚ) :
    truncQ (clipQ (s : ℚ) ((e : ℚ) - 1) q) = ⌊clipQ (s : ℚ) ((e : ℚ) - 1) q⌋ := by
  have hle : (s : ℚ) ≤ clipQ (s : ℚ) ((e : ℚ) - 1) q := by
    unfold clipQ
    have h1 : (s : ℚ) ≤ (e : ℚ) - 1 := by
      have : (s : ℚ) ≤ ((e - 1 : ℤ) : ℚ) := by exact_mod_cast hse
      push_cast at this
      linarith
    exact le_min h1 (le_max_left _ _)
  have h0 : (0 : ℚ) ≤ clipQ (s : ℚ) ((e : ℚ) - 1) q := by
    have : ((0 : ℤ) : ℚ) ≤ (s : ℚ) := by exact_mod_cast hs0
    push_cast at this
    linarith
  simp [truncQ, h0]

lemma truncQ_clipQ_mono (s e : ℤ) (hs0 : 0 ≤ s) (hse : s ≤ e - 1) {q1 q2 : ℚ}
    (h : q1 ≤ q2) :
    truncQ (clipQ (s : ℚ) ((e : ℚ) - 1) q1) ≤ truncQ (clipQ (s : ℚ) ((e : ℚ) - 1) q2) := by
  rw [truncQ_clipQ_nonneg s e hs0 hse q1, truncQ_clipQ_nonneg s e hs0 hse q2]
  apply Int.floor_le_floor
  unfold clipQ
  exact min_le_min (le_refl _) (max_le_max (le_refl _) h)

lemma linspace_fun_mono (a b : ℚ) (num : ℕ) (hab : a ≤ b) {i j : ℕ} (hij : i ≤ j) :
    (if num ≤ 1 then a else a + (b - a) * (i : ℚ) / ((num : ℚ) - 1)) ≤
      (if num ≤ 1 then a else a + (b - a) * (j : ℚ) / ((num : ℚ) - 1)) := by
  split
  · exact le_refl _
  · rename_i hn
    have hn2 : 2 ≤ num := by omega
    have hpos : (0 : ℚ) < (num : ℚ) - 1 := by
      have : (2 : ℚ) ≤ (num : ℚ) := by exact_mod_cast hn2
      linarith
    have hij2 : ((i : ℚ)) ≤ (j : ℚ) := by exact_mod_cast hij
    have h1 : (b - a) * i ≤ (b - a) * j :=
      mul_le_mul_of_nonneg_left hij2 (by linarith)
    have h2 : (b - a) * i / ((num : ℚ) - 1) ≤ (b - a) * j / ((num : ℚ) - 1) :=
      (div_le_div_iff_of_pos_right hpos).mpr h1
    linarith

/-- C1, counterexample.  At `clip_len = 1`, `sample_rate = 1`, `seg_len = 1`
the sampler returns `[-1]`: `np.clip` is applied with lower bound `0` above
upper bound `end_idx - 1 = -1` and numpy then returns the upper bound, so the
single index is `-1`, outside `[0, seg_len - 1] = [0, 0]`. -/
theorem sampleFrameIndices_seglen_one_violation :
    sampleFrameIndices 1 1 1 0 = [-1] ∧
      ¬ (∀ i ∈ sampleFrameIndices 1 1 1 0, 0 ≤ i ∧ i ≤ (1 : ℤ) - 1) := by
  have he : sampleFrameIndices 1 1 1 0 = [-1] := by
    norm_num [sampleFrameIndices, linspaceQ, clipQ, truncQ, startIdxD, endIdxD, convertedLen,
      List.range_succ, Int.ceil_neg]
  refine ⟨he, ?_⟩
  intro h
  have := h (-1) (by rw [he]; exact List.mem_singleton_self _)
  omega

/-- C1 (amended: `seg_len ≥ 2` instead of `seg_len ≥ 1`).  For every
`clip_len ≥ 1`, `sample_rate ≥ 1`, `seg_len ≥ 2` and every random draw,
`sample_frame_indices` returns exactly `clip_len` indices, each lying in
`[0, seg_len - 1]`, and the sequence is non-decreasing.  (At `seg_len = 1`
the length and monotonicity still hold but every index is `-1`.) -/
theorem sampleFrameIndices_spec (clipLen rate segLen r : ℕ)
    (hc : 1 ≤ clipLen) (hr : 1 ≤ rate) (hs : 2 ≤ segLen) :
    (sampleFrameIndices clipLen rate segLen r).length = clipLen ∧
      (∀ i ∈ sampleFrameIndices clipLen rate segLen r, 0 ≤ i ∧ i ≤ (segLen : ℤ) - 1) ∧
      (sampleFrameIndices clipLen rate segLen r).Pairwise (· ≤ ·) := by
  obtain ⟨he1, he2⟩ := endIdxD_bounds clipLen rate segLen r hc hr hs
  obtain ⟨hs1, hs2⟩ := startIdxD_bounds clipLen rate segLen r hc hr hs
  set s := startIdxD clipLen rate segLen r with hsdef
  set e := endIdxD clipLen rate segLen r with hedef
  refine ⟨?_, ?_, ?_⟩
  · simp only [sampleFrameIndices, linspaceQ, List.length_map, List.length_range]
  · intro i hi
    rw [sampleFrameIndices] at hi
    obtain ⟨q, hq, rfl⟩ := List.mem_map.mp hi
    rw [truncQ_clipQ_nonneg s e hs1 hs2 q]
    constructor
    · rw [Int.le_floor]
      have h1 : (s : ℚ) ≤ clipQ (s : ℚ) ((e : ℚ) - 1) q := by
        unfold clipQ
        have hse : (s : ℚ) ≤ (e : ℚ) - 1 := by
          have : (s : ℚ) ≤ ((e - 1 : ℤ) : ℚ) := by exact_mod_cast hs2
          push_cast at this
          linarith
        exact le_min hse (le_max_left _ _)
      have h0 : ((0 : ℤ) : ℚ) ≤ (s : ℚ) := by exact_mod_cast hs1
      calc ((0 : ℤ) : ℚ) ≤ (s : ℚ) := h0
        _ ≤ _ := h1
    · have h1 : clipQ (s : ℚ) ((e : ℚ) - 1) q ≤ ((e - 1 : ℤ) : ℚ) := by
        unfold clipQ
        push_cast
        exact min_le_left _ _
      have h2 : ⌊clipQ (s : ℚ) ((e : ℚ) - 1) q⌋ ≤ e - 1 := by
        calc ⌊clipQ (s : ℚ) ((e : ℚ) - 1) q⌋ ≤ ⌊((e - 1 : ℤ) : ℚ)⌋ := Int.floor_le_floor h1
          _ = e - 1 := Int.floor_intCast _
      omega
  · rw [sampleFrameIndices, linspaceQ, List.map_map]
    refine List.Pairwise.map _ ?_ (List.pairwise_lt_range clipLen)
    intro a b hab
    simp only [Function.comp]
    have hse : (s : ℚ) ≤ (e : ℚ) := by exact_mod_cast (by omega : s ≤ e)
    exact truncQ_clipQ_mono s e hs1 hs2
      (linspace_fun_mono (s : ℚ) (e : ℚ) clipLen hse (Nat.le_of_lt hab))

/-- C1, witness at `clip_len = 4`, `sample_rate = 1`, `seg_len = 5`,
draw `0`. -/
theorem sampleFrameIndices_spec_witness :
    1 ≤ 4 ∧ 1 ≤ 1 ∧ 2 ≤ 5 ∧
      ((sampleFrameIndices 4 1 5 0).length = 4 ∧
        (∀ i ∈ sampleFrameIndices 4 1 5 0, 0 ≤ i ∧ i ≤ (5 : ℤ) - 1) ∧
        (sampleFrameIndices 4 1 5 0).Pairwise (· ≤ ·)) :=
  ⟨by decide, by decide, by decide,
    sampleFrameIndices_spec 4 1 5 0 (by decide) (by decide) (by decide)⟩

/-! ## Video decoding (`read_video_pyav`) -/

/-- `read_video_pyav(container, indices)` from `model.py`.  The decoded
stream is modelled as a list of frames (one abstract frame value per
position).  The Python loop enumerates decoded frames `i = 0, 1, ...`,
breaks as soon as `i > indices[-1]`, and keeps frame `i` whenever
`i >= indices[0]` and `i` occurs in `indices` (a membership test, evaluated
here over the whole stream prefix the loop visits).  An empty `indices`
raises `IndexError` and an empty collection of kept frames makes
`np.stack` raise; both failures are modelled as `none`. -/
def readVideoPyav (stream : List ℕ) (indices : List ℤ) : Option (List ℕ) :=
  match indices.head?, indices.getLast? with
  | some startIndex, some endIndex =>
    let frames := (List.range stream.length).filterMap (fun (i : ℕ) =>
      if (i : ℤ) ≤ endIndex ∧ startIndex ≤ (i : ℤ) ∧ (i : ℤ) ∈ indices
      then some (stream.getD i 0) else none)
    if frames.isEmpty then none else some frames
  | _, _ => none

/-- C4: the decoder keeps each repeated index only once (`i in indices` is a
membership test), so on the duplicate-bearing index list `[0, 0, 1]` over a
3-frame stream it returns 2 frames, not the 3 (= clip length) frames that the
claim, the function's own docstring shape `(num_frames, ...)` and the
pipeline's `T = clip length` invariant require. -/
theorem readVideoPyav_duplicate_indices_drop :
    readVideoPyav [10, 20, 30] [0, 0, 1] = some [10, 20] ∧
      ((readVideoPyav [10, 20, 30] [0, 0, 1]).getD []).length ≠
        ([0, 0, 1] : List ℤ).length := by
  constructor <;> decide

/-! ## Time-embedding interpolation (`VideoClassifier._interpolate_time_embeddings`) -/

/-- A TimesFormer time-embedding table.  `leading3 = true` models the
3-dimensional shape `(1, F, D)`, `leading3 = false` the 2-dimensional shape
`(F, D)`; `rows` holds the `F` per-frame rows, each a vector of `D` values. -/
structure TimeTable (D : ℕ) where
  leading3 : Bool
  rows : List (Fin D → ℚ)
deriving DecidableEq

/-- `orig_size[0]`: the leading dimension of the stored tensor, which is `1`
for a `(1, F, D)` table and `F` for an `(F, D)` table.  This is the value the
code compares against `target_frames` for the no-op early return. -/
def dim0 {D : ℕ} (tbl : TimeTable D) : ℕ :=
  if tbl.leading3 then 1 else tbl.rows.length

/-- `orig_t = min(t / scale, orig_frames - 1)` with
`scale = target_frames / orig_frames` (Python float division, exact here). -/
def origTQ (origFrames targetFrames t : ℕ) : ℚ :=
  min ((t : ℚ) / ((targetFrames : ℚ) / (origFrames : ℚ))) ((origFrames : ℚ) - 1)

/-- `t_floor = int(orig_t)` (truncation toward zero). -/
def tFloorZ (origFrames targetFrames t : ℕ) : ℤ :=
  truncQ (origTQ origFrames targetFrames t)

/-- `t_ceil = min(t_floor + 1, orig_frames - 1)`. -/
def tCeilZ (origFrames targetFrames t : ℕ) : ℤ :=
  min (tFloorZ origFrames targetFrames t + 1) ((origFrames : ℤ) - 1)

/-- `t_frac = orig_t - t_floor`. -/
def tFracQ (origFrames targetFrames t : ℕ) : ℚ :=
  origTQ origFrames targetFrames t - (tFloorZ origFrames targetFrames t : ℚ)

/-- One interpolated row:
`(1 - t_frac) * table[t_floor] + t_frac * table[t_ceil]`. -/
def interpRow {D : ℕ} (rows : List (Fin D → ℚ)) (origFrames targetFrames t : ℕ) :
    Fin D → ℚ :=
  fun d =>
    (1 - tFracQ origFrames targetFrames t) *
        rows.getD (tFloorZ origFrames targetFrames t).toNat (fun _ => 0) d +
      tFracQ origFrames targetFrames t *
        rows.getD (tCeilZ origFrames targetFrames t).toNat (fun _ => 0) d

/-- Outcome of `_interpolate_time_embeddings`: either the early return that
keeps the existing trainable parameter (`unchanged`), or the construction of
a fresh `torch.nn.Parameter` that replaces it (`replaced`). -/
inductive InterpResult (D : ℕ) where
  | unchanged : InterpResult D
  | replaced : TimeTable D → InterpResult D
deriving DecidableEq

/-- `VideoClassifier._interpolate_time_embeddings(target_frames)` from
`model.py`: return unchanged when `orig_size[0] == target_frames`, otherwise
build a new table of `target_frames` linearly interpolated rows (the same
row formula is used for the `(F, D)` and `(1, F, D)` layouts; `orig_frames`
is `orig_size[0]` resp. `orig_size[1]`, in both cases the number of rows). -/
def interpolateTimeEmbeddings {D : ℕ} (tbl : TimeTable D) (targetFrames : ℕ) :
    InterpResult D :=
  if dim0 tbl = targetFrames then InterpResult.unchanged
  else InterpResult.replaced
    ⟨tbl.leading3,
      (List.range targetFrames).map (interpRow tbl.rows tbl.rows.length targetFrames)⟩

/-- The rows of the table the encoder ends up with after the adaptation
step: the original rows on the early return, the fresh rows otherwise. -/
def adaptedRows {D : ℕ} (tbl : TimeTable D) (targetFrames : ℕ) : List (Fin D → ℚ) :=
  match interpolateTimeEmbeddings tbl targetFrames with
  | InterpResult.unchanged => tbl.rows
  | InterpResult.replaced t2 => t2.rows

lemma getD_map_range {α : Type} (n i : ℕ) (hi : i < n) (F : ℕ → α) (d : α) :
    (((List.range n).map F).getD i d) = F i := by
  rw [List.getD_eq_getElem?_getD, List.getElem?_map, List.getElem?_range hi]
  rfl

lemma truncQ_natCast (n : ℕ) : truncQ ((n : ℕ) : ℚ) = n := by
  unfold truncQ
  rw [if_pos (by positivity)]
  exact_mod_cast Int.floor_natCast n

lemma origTQ_zero (L T : ℕ) (hL : 1 ≤ L) : origTQ L T 0 = 0 := by
  unfold origTQ
  have h : (0 : ℚ) ≤ (L : ℚ) - 1 := by
    have : (1 : ℚ) ≤ (L : ℚ) := by exact_mod_cast hL
    linarith
  simp [min_eq_left h]

lemma interpRow_zero {D : ℕ} (rows : List (Fin D → ℚ)) (L T : ℕ) (hL : 1 ≤ L) :
    interpRow rows L T 0 = rows.getD 0 (fun _ => 0) := by
  funext d
  unfold interpRow tFracQ tFloorZ
  rw [origTQ_zero L T hL]
  norm_num [truncQ]

lemma origTQ_last (L T : ℕ) (hL : 1 ≤ L) (hLT : L ≤ T) (hT : 2 ≤ T) :
    origTQ L T (T - 1) = (L : ℚ) - 1 := by
  unfold origTQ
  apply min_eq_right
  have hT0 : (0 : ℚ) < (T : ℚ) := by
    have : (2 : ℚ) ≤ (T : ℚ) := by exact_mod_cast hT
    linarith
  have hLT2 : (L : ℚ) ≤ (T : ℚ) := by exact_mod_cast hLT
  have hL2 : (1 : ℚ) ≤ (L : ℚ) := by exact_mod_cast hL
  rw [Nat.cast_sub (by omega : 1 ≤ T), div_div_eq_mul_div, le_div_iff₀ hT0]
  push_cast
  nlinarith

lemma interpRow_last {D : ℕ} (rows : List (Fin D → ℚ)) (T : ℕ)
    (hL : 1 ≤ rows.length) (hLT : rows.length ≤ T) (hT : 2 ≤ T) :
    interpRow rows rows.length T (T - 1) = rows.getD (rows.length - 1) (fun _ => 0) := by
  funext d
  unfold interpRow tFracQ tFloorZ
  rw [origTQ_last rows.length T hL hLT hT]
  have h1 : ((rows.length : ℚ) - 1) = ((rows.length - 1 : ℕ) : ℚ) := by
    rw [Nat.cast_sub hL]
    norm_num
  rw [h1, truncQ_natCast]
  norm_num

/-- A one-column time-embedding row holding the constant `q`, used for
concrete instances. -/
def constRow (q : ℚ) : Fin 1 → ℚ := fun _ => q

lemma adaptedRows_of_dim0_eq {D : ℕ} (tbl : TimeTable D) (target : ℕ)
    (hc : dim0 tbl = target) : adaptedRows tbl target = tbl.rows := by
  unfold adaptedRows interpolateTimeEmbeddings
  rw [if_pos hc]

lemma adaptedRows_of_dim0_ne {D : ℕ} (tbl : TimeTable D) (target : ℕ)
    (hc : ¬ dim0 tbl = target) :
    adaptedRows tbl target =
      (List.range target).map (interpRow tbl.rows tbl.rows.length target) := by
  unfold adaptedRows interpolateTimeEmbeddings
  rw [if_neg hc]

/-- C2, counterexample.  Downsampling a 3-row table to `target_len = 2`:
the last adapted row is the average of source rows 1 and 2 (the `min` clamp
on `orig_t` only bites when `target_len ≥ source_len`), so with source rows
`0, 0, 2` the last adapted row is `1`, not the last source row `2`. -/
theorem interpolate_last_row_violation :
    ((adaptedRows (TimeTable.mk false [constRow 0, constRow 0, constRow 2]) 2).getD 1
        (constRow 0)) 0 = 1 ∧
      (([constRow 0, constRow 0, constRow 2]).getD 2 (constRow 0)) 0 = 2 ∧
      (1 : ℚ) ≠ 2 := by
  refine ⟨?_, by norm_num [constRow], by norm_num⟩
  rw [adaptedRows_of_dim0_ne _ _ (by simp [dim0])]
  norm_num [interpRow, tFracQ, tFloorZ, tCeilZ, origTQ, truncQ, constRow, List.range_succ,
    Int.toNat_ofNat, List.getElem_cons_succ, List.getElem_cons_zero]
  rw [show ([constRow 0, constRow 0, constRow 2][Int.toNat 2] 0 : ℚ) = 2 from rfl]
  norm_num

/-- C2 (amended: the last-row part additionally needs
`source_len ≤ target_len`).  For every table with at least one row and every
`target_len ≥ 2`, the adapted table's row 0 equals the source row 0; and when
`source_len ≤ target_len` the adapted table's last row equals the source
table's last row.  (When `target_len < source_len` the last adapted row is an
interior interpolation, see the counterexample.) -/
theorem interpolate_endpoints {D : ℕ} (tbl : TimeTable D) (target : ℕ)
    (h1 : 1 ≤ tbl.rows.length) (h3 : 2 ≤ target) :
    (adaptedRows tbl target).getD 0 (fun _ => 0) = tbl.rows.getD 0 (fun _ => 0) ∧
      (tbl.rows.length ≤ target →
        (adaptedRows tbl target).getD (target - 1) (fun _ => 0) =
          tbl.rows.getD (tbl.rows.length - 1) (fun _ => 0)) := by
  constructor
  · by_cases hc : dim0 tbl = target
    · rw [adaptedRows_of_dim0_eq tbl target hc]
    · rw [adaptedRows_of_dim0_ne tbl target hc]
      rw [getD_map_range target 0 (by omega) _ _]
      exact interpRow_zero tbl.rows tbl.rows.length target h1
  · intro hle
    by_cases hc : dim0 tbl = target
    · rw [adaptedRows_of_dim0_eq tbl target hc]
      rcases tbl with ⟨lead, rows⟩
      cases lead
      · simp only [dim0, Bool.false_eq_true, if_false] at hc
        simp only at hle ⊢
        rw [hc]
      · simp only [dim0, if_true] at hc
        omega
    · rw [adaptedRows_of_dim0_ne tbl target hc]
      rw [getD_map_range target (target - 1) (by omega) _ _]
      exact interpRow_last tbl.rows target h1 hle h3

/-- C2, witness: a 2-row one-column table upsampled to 3 frames keeps its
first and last rows at the endpoints. -/
theorem interpolate_endpoints_witness :
    (adaptedRows (TimeTable.mk false [constRow 5, constRow 7]) 3).getD 0
        (fun _ => 0) = ([constRow 5, constRow 7]).getD 0 (fun _ => 0) ∧
    (adaptedRows (TimeTable.mk false [constRow 5, constRow 7]) 3).getD 2
        (fun _ => 0) = ([constRow 5, constRow 7]).getD 1 (fun _ => 0) :=
  ⟨(interpolate_endpoints (TimeTable.mk false [constRow 5, constRow 7]) 3
      (by decide) (by decide)).1,
   (interpolate_endpoints (TimeTable.mk false [constRow 5, constRow 7]) 3
      (by decide) (by decide)).2 (by decide)⟩

lemma map_interpRow_self {D : ℕ} (rows : List (Fin D → ℚ)) (hL : 1 ≤ rows.length) :
    (List.range rows.length).map (interpRow rows rows.length rows.length) = rows := by
  apply List.ext_getElem
  · simp
  · intro n hn1 hn2
    rw [List.getElem_map, List.getElem_range]
    have hL0 : (0 : ℚ) < (rows.length : ℚ) := by
      have : (1 : ℚ) ≤ (rows.length : ℚ) := by exact_mod_cast hL
      linarith
    have hno : origTQ rows.length rows.length n = (n : ℚ) := by
      unfold origTQ
      rw [div_self (ne_of_gt hL0), div_one]
      apply min_eq_left
      have hn : n < rows.length := by simpa using hn2
      have : ((n : ℚ)) + 1 ≤ (rows.length : ℚ) := by exact_mod_cast hn
      linarith
    funext d
    unfold interpRow tFracQ tFloorZ
    rw [hno, truncQ_natCast]
    have hget : rows.getD n (fun _ => 0) = rows[n] :=
      List.getD_eq_getElem rows (fun _ => 0) (by simpa using hn2)
    rw [← hget]
    norm_num

/-- C3, counterexample.  For a `(1, F, D)`-shaped table the no-op check
compares the leading dimension `1` (not `F`) against `target_frames`, so a
3-dimensional table whose frame count already equals the target (`F = 2`,
`target = 2`) is *not* returned unchanged: a fresh parameter is built (its
rows merely happen to equal the source rows). -/
theorem interpolate_noop_violation :
    interpolateTimeEmbeddings (TimeTable.mk true [constRow 0, constRow 5]) 2 ≠
        InterpResult.unchanged ∧
      interpolateTimeEmbeddings (TimeTable.mk true [constRow 0, constRow 5]) 2 =
        InterpResult.replaced (TimeTable.mk true [constRow 0, constRow 5]) := by
  have h2 : interpolateTimeEmbeddings (TimeTable.mk true [constRow 0, constRow 5]) 2 =
      InterpResult.replaced (TimeTable.mk true [constRow 0, constRow 5]) := by
    unfold interpolateTimeEmbeddings
    rw [if_neg (by simp [dim0])]
    have := map_interpRow_self [constRow 0, constRow 5] (by decide)
    simp only [List.length_cons, List.length_nil] at this
    rw [show ((TimeTable.mk true [constRow 0, constRow 5]).rows) =
      [constRow 0, constRow 5] from rfl]
    simp only [List.length_cons, List.length_nil]
    rw [this]
  refine ⟨?_, h2⟩
  rw [h2]
  intro hcontr
  exact InterpResult.noConfusion hcontr

/-- C3 (amended): the adaptation is a no-op exactly when the *checked*
dimension equals the target: for an `(F, D)` table this is the frame count
`F`, but for a `(1, F, D)` table it is the leading `1`, so a 3-dimensional
table is returned unchanged only when `target = 1`; when its frame count
equals the target (`≥ 2`) a fresh parameter with value-identical rows is
created instead of keeping the original trainable table. -/
theorem interpolate_noop_shapes {D : ℕ} (tbl : TimeTable D) (target : ℕ) :
    (tbl.leading3 = false → tbl.rows.length = target →
        interpolateTimeEmbeddings tbl target = InterpResult.unchanged) ∧
      (tbl.leading3 = true → target = 1 →
        interpolateTimeEmbeddings tbl target = InterpResult.unchanged) ∧
      (tbl.leading3 = true → tbl.rows.length = target → 2 ≤ target →
        interpolateTimeEmbeddings tbl target =
          InterpResult.replaced (TimeTable.mk true tbl.rows)) := by
  refine ⟨?_, ?_, ?_⟩
  · intro hl hlen
    unfold interpolateTimeEmbeddings
    rw [if_pos (by simp [dim0, hl, hlen])]
  · intro hl ht
    unfold interpolateTimeEmbeddings
    rw [if_pos (by simp [dim0, hl, ht])]
  · intro hl hlen hT
    unfold interpolateTimeEmbeddings
    rw [if_neg (by simp [dim0, hl]; omega)]
    rw [← hlen, hl, map_interpRow_self tbl.rows (by omega)]

/-- C3, witness: the three no-op/non-no-op cases at concrete tables. -/
theorem interpolate_noop_shapes_witness :
    interpolateTimeEmbeddings (TimeTable.mk false [constRow 3]) 1 =
        InterpResult.unchanged ∧
      interpolateTimeEmbeddings (TimeTable.mk true [constRow 3, constRow 4]) 1 =
        InterpResult.unchanged ∧
      interpolateTimeEmbeddings (TimeTable.mk true [constRow 3, constRow 4]) 2 =
        InterpResult.replaced (TimeTable.mk true [constRow 3, constRow 4]) :=
  ⟨(interpolate_noop_shapes (TimeTable.mk false [constRow 3]) 1).1 rfl rfl,
   (interpolate_noop_shapes (TimeTable.mk true [constRow 3, constRow 4]) 1).2.1 rfl rfl,
   (interpolate_noop_shapes (TimeTable.mk true [constRow 3, constRow 4]) 2).2.2 rfl rfl
     (by decide)⟩

/-! ## Fusion projector (`AttentiveProjector`)

Tensors are functions out of `Fin`; a single sample's input `(V, D)` is
`Fin V → Fin D → ℚ` (the batch dimension is elementwise in the code, so one
sample suffices).  The transcendental float functions are abstract
parameters: `expF` for `exp` inside softmax, `rsqrtF` for
`1 / sqrt(var + eps)` inside `LayerNorm`, `geluF` for GELU, `sigmoidF` for
the gate's sigmoid, `sqrtF` for `torch.std`'s square root, and the
`1 / sqrt(head_dim)` attention scaling is the abstract scalar `attnScale`.
Dropout layers are the identity (evaluation mode / dropout disabled). -/

/-- Mean of a vector over its feature axis (`tensor.mean(dim=-1)`). -/
def meanFin (n : ℕ) (x : Fin n → ℚ) : ℚ :=
  (∑ i, x i) / (n : ℚ)

/-- Biased variance (division by `n`), as used inside `torch.nn.LayerNorm`. -/
def varPop (n : ℕ) (x : Fin n → ℚ) : ℚ :=
  (∑ i, (x i - meanFin n x) ^ 2) / (n : ℚ)

/-- Unbiased (Bessel-corrected) variance (division by `n - 1`), the square of
`torch.std(dim=-1)`'s default behavior. -/
def varUnb (n : ℕ) (x : Fin n → ℚ) : ℚ :=
  (∑ i, (x i - meanFin n x) ^ 2) / ((n : ℚ) - 1)

/-- `torch.nn.LayerNorm(n)` with learned scale `g` and shift `b`:
`g * (x - mean) / sqrt(var + 1e-5) + b`, with `1 / sqrt(var + eps)`
abstracted as `rsqrtF (var + eps)`. -/
def layerNormQ (rsqrtF : ℚ → ℚ) (n : ℕ) (g b : Fin n → ℚ) (x : Fin n → ℚ) :
    Fin n → ℚ :=
  fun i => g i * ((x i - meanFin n x) * rsqrtF (varPop n x + 1 / 100000)) + b i

/-- Weights of `torch.nn.MultiheadAttention(E, H)` for self-attention, with
the `(3E, E)` packed input projection already split per head (`hd = E / H`)
and the `(E, E)` output projection indexed by (head, head-dim) pairs — the
standard reshape of the concatenated head outputs. -/
structure MHAWeights (E H hd : ℕ) where
  wq : Fin H → Fin hd → Fin E → ℚ
  bq : Fin H → Fin hd → ℚ
  wk : Fin H → Fin hd → Fin E → ℚ
  bk : Fin H → Fin hd → ℚ
  wv : Fin H → Fin hd → Fin E → ℚ
  bv : Fin H → Fin hd → ℚ
  wo : Fin E → Fin H → Fin hd → ℚ
  bo : Fin E → ℚ

/-- Per-head query projection of one view's vector. -/
def qProj {E H hd : ℕ} (W : MHAWeights E H hd) (x : Fin E → ℚ) (h : Fin H)
    (d : Fin hd) : ℚ :=
  (∑ e, W.wq h d e * x e) + W.bq h d

/-- Per-head key projection of one view's vector. -/
def kProj {E H hd : ℕ} (W : MHAWeights E H hd) (x : Fin E → ℚ) (h : Fin H)
    (d : Fin hd) : ℚ :=
  (∑ e, W.wk h d e * x e) + W.bk h d

/-- Per-head value projection of one view's vector. -/
def vProj {E H hd : ℕ} (W : MHAWeights E H hd) (x : Fin E → ℚ) (h : Fin H)
    (d : Fin hd) : ℚ :=
  (∑ e, W.wv h d e * x e) + W.bv h d

/-- Scaled dot-product attention score of query view `v` against key view
`j` in head `h`. -/
def attnScore {E H hd V : ℕ} (scale : ℚ) (W : MHAWeights E H hd)
    (x : Fin V → Fin E → ℚ) (v j : Fin V) (h : Fin H) : ℚ :=
  scale * ∑ d, qProj W (x v) h d * kProj W (x j) h d

/-- Softmax attention weight of query view `v` on key view `j` in head `h`
(softmax over the key axis, `exp` abstracted as `expF`). -/
def attnWeight {E H hd V : ℕ} (expF : ℚ → ℚ) (scale : ℚ) (W : MHAWeights E H hd)
    (x : Fin V → Fin E → ℚ) (v j : Fin V) (h : Fin H) : ℚ :=
  expF (attnScore scale W x v j h) / ∑ j2, expF (attnScore scale W x v j2 h)

/-- Head output: attention-weighted sum of the value projections of all
views. -/
def attnHead {E H hd V : ℕ} (expF : ℚ → ℚ) (scale : ℚ) (W : MHAWeights E H hd)
    (x : Fin V → Fin E → ℚ) (v : Fin V) (h : Fin H) (d : Fin hd) : ℚ :=
  ∑ j, attnWeight expF scale W x v j h * vProj W (x j) h d

/-- Full multi-head self-attention output (`self.view_attn(q, k, v)` with
query = key = value = the normalized view stack): concatenated head outputs
through the output projection. -/
def mhaOut {E H hd V : ℕ} (expF : ℚ → ℚ) (scale : ℚ) (W : MHAWeights E H hd)
    (x : Fin V → Fin E → ℚ) : Fin V → Fin E → ℚ :=
  fun v e => (∑ h, ∑ d, W.wo e h d * attnHead expF scale W x v h d) + W.bo e

/-- All learned weights of `AttentiveProjector` (`model.py`): input
`LayerNorm`, multi-head view attention with its scale, first projection,
post-GELU `LayerNorm`, optional gate, final projection, final `LayerNorm`,
and the target text statistics. -/
structure ProjWeights (E Hd Od Hh hd : ℕ) where
  viewNormW : Fin E → ℚ
  viewNormB : Fin E → ℚ
  attn : MHAWeights E Hh hd
  attnScale : ℚ
  w1 : Fin Hd → Fin E → ℚ
  b1 : Fin Hd → ℚ
  norm1W : Fin Hd → ℚ
  norm1B : Fin Hd → ℚ
  useGate : Bool
  wg : Fin Hd → Fin Hd → ℚ
  bg : Fin Hd → ℚ
  w2 : Fin Od → Fin Hd → ℚ
  b2 : Fin Od → ℚ
  normFW : Fin Od → ℚ
  normFB : Fin Od → ℚ
  textMean : ℚ
  textStd : ℚ

/-- `video_emb - video_emb.mean(dim=-1, keepdim=True)`. -/
def centeredFin (n : ℕ) (x : Fin n → ℚ) : Fin n → ℚ :=
  fun i => x i - meanFin n x

/-- `AttentiveProjector.normalize_to_text_stats`: center to zero mean,
divide by the (unbiased) standard deviation of the centered vector plus
`1e-6`, multiply by the target std and add the target mean. -/
def normalizeToTextStats (sqrtF : ℚ → ℚ) (tm ts : ℚ) (n : ℕ) (x : Fin n → ℚ) :
    Fin n → ℚ :=
  fun i =>
    centeredFin n x i / (sqrtF (varUnb n (centeredFin n x)) + 1 / 1000000) * ts + tm

/-- Stage 1 of `AttentiveProjector.forward`: `self.view_norm` applied to
each view's embedding. -/
def viewStage (rsqrtF : ℚ → ℚ) {E Hd Od Hh hd : ℕ} (P : ProjWeights E Hd Od Hh hd)
    {V : ℕ} (x : Fin V → Fin E → ℚ) : Fin V → Fin E → ℚ :=
  fun v => layerNormQ rsqrtF E P.viewNormW P.viewNormB (x v)

/-- Stages 2–3 of `AttentiveProjector.forward`: multi-head self-attention
across views followed by `attn_output.mean(dim=1)`. -/
def pooledViews (expF : ℚ → ℚ) {E Hd Od Hh hd : ℕ} (P : ProjWeights E Hd Od Hh hd)
    {V : ℕ} (xn : Fin V → Fin E → ℚ) : Fin E → ℚ :=
  fun e => (∑ v, mhaOut expF P.attnScale P.attn xn v e) / (V : ℚ)

/-- Stages 4–7 of `AttentiveProjector.forward`, a function of the pooled
vector only: `proj1`, GELU, `norm1`, dropout (identity in evaluation mode),
the optional sigmoid gate, `proj2`, `norm_final`, and
`normalize_to_text_stats`. -/
def headStage (rsqrtF geluF sigmoidF sqrtF : ℚ → ℚ) {E Hd Od Hh hd : ℕ}
    (P : ProjWeights E Hd Od Hh hd) (fused : Fin E → ℚ) : Fin Od → ℚ :=
  let h1 : Fin Hd → ℚ := fun i => (∑ e, P.w1 i e * fused e) + P.b1 i
  let h2 : Fin Hd → ℚ := fun i => geluF (h1 i)
  let h3 : Fin Hd → ℚ := layerNormQ rsqrtF Hd P.norm1W P.norm1B h2
  let h4 : Fin Hd → ℚ :=
    if P.useGate then fun i => h3 i * sigmoidF ((∑ j, P.wg i j * h3 j) + P.bg i)
    else h3
  let o1 : Fin Od → ℚ := fun o => (∑ i, P.w2 o i * h4 i) + P.b2 o
  let o2 : Fin Od → ℚ := layerNormQ rsqrtF Od P.normFW P.normFB o1
  normalizeToTextStats sqrtF P.textMean P.textStd Od o2

/-- `AttentiveProjector.forward` on one sample (dropout disabled). -/
def attentiveProjectorForward (expF rsqrtF geluF sigmoidF sqrtF : ℚ → ℚ)
    {E Hd Od Hh hd : ℕ} (P : ProjWeights E Hd Od Hh hd) {V : ℕ}
    (x : Fin V → Fin E → ℚ) : Fin Od → ℚ :=
  headStage rsqrtF geluF sigmoidF sqrtF P (pooledViews expF P (viewStage rsqrtF P x))

lemma attnWeight_perm {E H hd V : ℕ} (expF : ℚ → ℚ) (scale : ℚ)
    (W : MHAWeights E H hd) (π : Equiv.Perm (Fin V)) (x : Fin V → Fin E → ℚ)
    (v j : Fin V) (h : Fin H) :
    attnWeight expF scale W (fun u => x (π u)) v j h =
      attnWeight expF scale W x (π v) (π j) h := by
  unfold attnWeight
  congr 1
  calc ∑ j2, expF (attnScore scale W (fun u => x (π u)) v j2 h)
      = ∑ j2, expF (attnScore scale W x (π v) (π j2) h) := rfl
    _ = ∑ j2, expF (attnScore scale W x (π v) j2 h) :=
        Equiv.sum_comp π (fun j2 => expF (attnScore scale W x (π v) j2 h))

lemma attnHead_perm {E H hd V : ℕ} (expF : ℚ → ℚ) (scale : ℚ)
    (W : MHAWeights E H hd) (π : Equiv.Perm (Fin V)) (x : Fin V → Fin E → ℚ)
    (v : Fin V) (h : Fin H) (d : Fin hd) :
    attnHead expF scale W (fun u => x (π u)) v h d =
      attnHead expF scale W x (π v) h d := by
  unfold attnHead
  calc ∑ j, attnWeight expF scale W (fun u => x (π u)) v j h *
        vProj W ((fun u => x (π u)) j) h d
      = ∑ j, attnWeight expF scale W x (π v) (π j) h * vProj W (x (π j)) h d := by
        refine Finset.sum_congr rfl (fun j _ => ?_)
        rw [attnWeight_perm]
    _ = ∑ j, attnWeight expF scale W x (π v) j h * vProj W (x j) h d :=
        Equiv.sum_comp π (fun j => attnWeight expF scale W x (π v) j h * vProj W (x j) h d)

lemma mhaOut_perm {E H hd V : ℕ} (expF : ℚ → ℚ) (scale : ℚ)
    (W : MHAWeights E H hd) (π : Equiv.Perm (Fin V)) (x : Fin V → Fin E → ℚ)
    (v : Fin V) (e : Fin E) :
    mhaOut expF scale W (fun u => x (π u)) v e = mhaOut expF scale W x (π v) e := by
  unfold mhaOut
  congr 1
  refine Finset.sum_congr rfl (fun h _ => ?_)
  refine Finset.sum_congr rfl (fun d _ => ?_)
  rw [attnHead_perm]

/-- C5: the fusion projection (`AttentiveProjector.forward` — view
`LayerNorm`, multi-head self-attention across views, mean-pool over the view
axis, projection, GELU, `LayerNorm`, optional gate, final projection and
normalization, statistic alignment, dropout disabled) is invariant under
every permutation of the `V` input view embeddings, for all weights and all
instantiations of the abstract nonlinearities. -/
theorem attentiveProjector_perm_invariant (expF rsqrtF geluF sigmoidF sqrtF : ℚ → ℚ)
    {E Hd Od Hh hd V : ℕ} (P : ProjWeights E Hd Od Hh hd)
    (π : Equiv.Perm (Fin V)) (x : Fin V → Fin E → ℚ) :
    attentiveProjectorForward expF rsqrtF geluF sigmoidF sqrtF P (fun v => x (π v)) =
      attentiveProjectorForward expF rsqrtF geluF sigmoidF sqrtF P x := by
  unfold attentiveProjectorForward
  refine congrArg _ ?_
  funext e
  unfold pooledViews
  refine congrArg (fun s => s / (V : ℚ)) ?_
  have hview : viewStage rsqrtF P (fun v => x (π v)) =
      fun v => viewStage rsqrtF P x (π v) := rfl
  rw [hview]
  calc ∑ v, mhaOut expF P.attnScale P.attn (fun u => viewStage rsqrtF P x (π u)) v e
      = ∑ v, mhaOut expF P.attnScale P.attn (viewStage rsqrtF P x) (π v) e := by
        refine Finset.sum_congr rfl (fun v _ => ?_)
        rw [mhaOut_perm]
    _ = ∑ v, mhaOut expF P.attnScale P.attn (viewStage rsqrtF P x) v e :=
        Equiv.sum_comp π (fun v => mhaOut expF P.attnScale P.attn (viewStage rsqrtF P x) v e)

lemma meanFin_affine (n : ℕ) (hn : n ≠ 0) (a c : ℚ) (y : Fin n → ℚ) :
    meanFin n (fun i => a * y i + c) = a * meanFin n y + c := by
  unfold meanFin
  rw [Finset.sum_add_distrib, Finset.sum_const, Finset.card_univ, Fintype.card_fin,
    nsmul_eq_mul, ← Finset.mul_sum]
  have hq : (n : ℚ) ≠ 0 := Nat.cast_ne_zero.mpr hn
  field_simp
  ring

lemma meanFin_centered (n : ℕ) (hn : n ≠ 0) (x : Fin n → ℚ) :
    meanFin n (centeredFin n x) = 0 := by
  unfold centeredFin meanFin
  rw [Finset.sum_sub_distrib, Finset.sum_const, Finset.card_univ, Fintype.card_fin,
    nsmul_eq_mul]
  have hq : (n : ℚ) ≠ 0 := Nat.cast_ne_zero.mpr hn
  field_simp

lemma varUnb_affine (n : ℕ) (hn : n ≠ 0) (a c : ℚ) (y : Fin n → ℚ) :
    varUnb n (fun i => a * y i + c) = a ^ 2 * varUnb n y := by
  unfold varUnb
  rw [meanFin_affine n hn a c y]
  have hsq : ∀ i : Fin n, (a * y i + c - (a * meanFin n y + c)) ^ 2 =
      a ^ 2 * (y i - meanFin n y) ^ 2 := by
    intro i
    ring
  rw [Finset.sum_congr rfl (fun i _ => hsq i), ← Finset.mul_sum]
  ring

/-- C6: the statistic-alignment step.  Hypotheses: `D ≥ 64`; `sg` is the
(abstract) square root the code computes for the centered input's unbiased
variance, and it really is that square root (`sg ^ 2` equals the variance)
with non-degenerate spread `0 < s0 ≤ sg`; the target std `ts` is positive;
`tau` is likewise the code's square root of the output's unbiased variance,
with `tau ≥ 0`.  Conclusion: the output's empirical mean across features is
*exactly* the target mean `tm`, and its empirical standard deviation `tau`
is within `ts * 1e-6 / s0` of the target std `ts`. -/
theorem normalizeToTextStats_aligns (D : ℕ) (sqrtF : ℚ → ℚ) (tm ts sg s0 tau : ℚ)
    (x : Fin D → ℚ)
    (hD : 64 ≤ D)
    (hsg : sqrtF (varUnb D (centeredFin D x)) = sg)
    (hsgsq : sg ^ 2 = varUnb D (centeredFin D x))
    (hs0 : 0 < s0) (hsglb : s0 ≤ sg)
    (hts : 0 < ts)
    (htau : sqrtF (varUnb D (normalizeToTextStats sqrtF tm ts D x)) = tau)
    (htau0 : 0 ≤ tau)
    (htausq : tau ^ 2 = varUnb D (normalizeToTextStats sqrtF tm ts D x)) :
    meanFin D (normalizeToTextStats sqrtF tm ts D x) = tm ∧
      |tau - ts| ≤ ts * (1 / 1000000) / s0 := by
  have hn : D ≠ 0 := by omega
  have hsg0 : 0 < sg := lt_of_lt_of_le hs0 hsglb
  have hden : 0 < sg + 1 / 1000000 := by linarith
  have hrw : normalizeToTextStats sqrtF tm ts D x =
      fun i => (ts / (sg + 1 / 1000000)) * centeredFin D x i + tm := by
    funext i
    unfold normalizeToTextStats
    rw [hsg]
    ring
  constructor
  · rw [hrw, meanFin_affine D hn _ _ _, meanFin_centered D hn x]
    ring
  · have hvar : varUnb D (normalizeToTextStats sqrtF tm ts D x) =
        (ts / (sg + 1 / 1000000)) ^ 2 * varUnb D (centeredFin D x) := by
      rw [hrw]
      exact varUnb_affine D hn _ _ _
    set c := ts / (sg + 1 / 1000000) with hc
    have hcpos : 0 < c := div_pos hts hden
    have htau2 : tau ^ 2 = (c * sg) ^ 2 := by
      rw [htausq, hvar, ← hsgsq]
      ring
    have hfac : (tau - c * sg) * (tau + c * sg) = 0 := by linear_combination htau2
    have htaueq : tau = c * sg := by
      rcases mul_eq_zero.mp hfac with hz | hz
      · linarith [sub_eq_zero.mp (by linarith : tau - c * sg = 0)]
      · have h1 : 0 ≤ c * sg := le_of_lt (mul_pos hcpos hsg0)
        linarith
    rw [htaueq]
    have he1 : c * sg - ts = -(ts * (1 / 1000000) / (sg + 1 / 1000000)) := by
      rw [hc]
      field_simp
      ring
    have habs : |c * sg - ts| = ts * (1 / 1000000) / (sg + 1 / 1000000) := by
      rw [he1, abs_neg, abs_of_nonneg (by positivity)]
    rw [habs]
    gcongr
    linarith

/-- The concrete per-sample vector used by the C6 witness: `8` in feature 0
and `0` elsewhere, over `D = 64` features (its centered unbiased variance is
exactly `1`). -/
def xw : Fin 64 → ℚ := fun i => if i = 0 then 8 else 0

/-- The concrete square-root oracle used by the C6 witness: correct at the
two variance values the computation visits. -/
def sqF0 : ℚ → ℚ := fun v => if v = 1 then 1 else 2000000 / 1000001

lemma sum_ite_fin64 (a b : ℚ) :
    ∑ i : Fin 64, (if i = 0 then a else b) = a + 63 * b := by
  have hsplit : ∀ i : Fin 64, (if i = 0 then a else b) =
      b + (if i = 0 then a - b else 0) := by
    intro i
    split <;> ring
  rw [Finset.sum_congr rfl (fun i _ => hsplit i), Finset.sum_add_distrib,
    Finset.sum_const, Finset.card_univ, Fintype.card_fin, nsmul_eq_mul,
    Finset.sum_ite_eq' Finset.univ (0 : Fin 64) (fun _ => a - b)]
  norm_num
  ring

lemma meanFin_xw : meanFin 64 xw = 1 / 8 := by
  unfold meanFin xw
  rw [sum_ite_fin64 8 0]
  norm_num

lemma varUnb_centered_xw : varUnb 64 (centeredFin 64 xw) = 1 := by
  have hc : meanFin 64 (centeredFin 64 xw) = 0 := meanFin_centered 64 (by norm_num) xw
  unfold varUnb
  rw [hc]
  have hpt : ∀ i : Fin 64, (centeredFin 64 xw i - 0) ^ 2 =
      (if i = 0 then ((63 : ℚ) / 8) ^ 2 else (1 / 8) ^ 2) := by
    intro i
    unfold centeredFin
    rw [meanFin_xw]
    unfold xw
    split <;> norm_num
  rw [Finset.sum_congr rfl (fun i _ => hpt i), sum_ite_fin64]
  norm_num

lemma normalize_xw_affine :
    normalizeToTextStats sqF0 3 2 64 xw =
      fun i => (2000000 / 1000001 : ℚ) * centeredFin 64 xw i + 3 := by
  funext i
  unfold normalizeToTextStats
  rw [varUnb_centered_xw]
  rw [show sqF0 1 = 1 from by norm_num [sqF0]]
  ring

lemma varUnb_normalize_xw :
    varUnb 64 (normalizeToTextStats sqF0 3 2 64 xw) = (2000000 / 1000001 : ℚ) ^ 2 := by
  rw [normalize_xw_affine, varUnb_affine 64 (by norm_num) _ _ _, varUnb_centered_xw]
  ring

/-- C6, witness at `D = 64`, `x = xw`, target mean `3`, target std `2`,
spread lower bound `1`. -/
theorem normalizeToTextStats_aligns_witness :
    meanFin 64 (normalizeToTextStats sqF0 3 2 64 xw) = 3 ∧
      |(2000000 / 1000001 : ℚ) - 2| ≤ 2 * (1 / 1000000) / 1 :=
  normalizeToTextStats_aligns 64 sqF0 3 2 1 1 (2000000 / 1000001) xw
    (by norm_num)
    (by rw [varUnb_centered_xw]; norm_num [sqF0])
    (by rw [varUnb_centered_xw]; norm_num)
    (by norm_num) (by norm_num) (by norm_num)
    (by rw [varUnb_normalize_xw]; norm_num [sqF0])
    (by norm_num)
    (by rw [varUnb_normalize_xw])

/-! ## Batch assembly (`VideoDataset.__getitem__` and `collate_fn`) -/

/-- One successfully assembled dataset item: the decoded per-view videos
(abstracted to their payloads) and the numeric label, as returned by the
`try` block of `VideoDataset.__getitem__`. -/
structure SampleItem where
  videos : List ℕ
  label : ℕ
deriving DecidableEq

/-- A collated batch: stacked videos and labels (one entry per surviving
example), the result of `collate_fn`'s processor/stack step. -/
structure CollatedBatch where
  pixelValues : List (List ℕ)
  labels : List ℕ
deriving DecidableEq

/-- `VideoDataset.__getitem__(idx)` from `model.py`, abstracted over the
per-sample decode outcome: `items idx = some it` models the `try` block
succeeding with item `it`, `items idx = none` models every view failing (an
exception).  On failure the code runs `return self[0] if idx != 0 else None`:
index 0 returns `None`, any other index returns the *recursive* fetch of
index 0 (inlined here — the recursion immediately terminates at index 0,
where a failure again yields `None`). -/
def getItem {n : ℕ} (items : Fin n → Option SampleItem) (idx : Fin n) :
    Option SampleItem :=
  match items idx with
  | some it => some it
  | none =>
    if idx.val = 0 then none
    else
      match items ⟨0, idx.pos⟩ with
      | some it0 => some it0
      | none => none

/-- `collate_fn(examples)` from `model.py`: drop `None` examples; if none
are left return `None` ("no data"); otherwise stack the surviving examples'
videos and labels into a batch. -/
def collateFn (examples : List (Option SampleItem)) : Option CollatedBatch :=
  let ex := examples.filterMap id
  if ex.isEmpty then none
  else some ⟨ex.map SampleItem.videos, ex.map SampleItem.label⟩

/-- C7, counterexample.  Two samples, sample 1 fails every view's decode
while sample 0 succeeds with payload `⟨[7], 1⟩`: `__getitem__(1)` falls back
to `self[0]`, so the collated batch holds sample 0's data **twice** — it
does contain data substituted from a different sample, instead of the
batch `[⟨[7], 1⟩]` containing exactly the surviving sample's own data that
the claim requires. -/
theorem getItem_substitution_violation :
    collateFn [getItem (fun i : Fin 2 => if i.val = 0 then some ⟨[7], 1⟩ else none) 0,
        getItem (fun i : Fin 2 => if i.val = 0 then some ⟨[7], 1⟩ else none) 1] =
      some ⟨[[7], [7]], [1, 1]⟩ ∧
    (some (CollatedBatch.mk [[7], [7]] [1, 1]) : Option CollatedBatch) ≠
      some ⟨[[7]], [1]⟩ := by
  constructor <;> decide

/-- C7 (amended): only a failure at index 0 excludes the sample from the
batch.  For a two-sample dataset: if sample 0 fails all decodes and sample 1
succeeds, the batch contains exactly sample 1's data; but if sample 1 fails
and sample 0 succeeds, the failed slot is silently filled with sample 0's
data, so the batch contains sample 0's data twice. -/
theorem getItem_fallback (a b : SampleItem) :
    (∀ items : Fin 2 → Option SampleItem, items 0 = none → items 1 = some b →
        collateFn [getItem items 0, getItem items 1] =
          some ⟨[b.videos], [b.label]⟩) ∧
      (∀ items : Fin 2 → Option SampleItem, items 0 = some a → items 1 = none →
        collateFn [getItem items 0, getItem items 1] =
          some ⟨[a.videos, a.videos], [a.label, a.label]⟩) := by
  constructor
  · intro items h0 h1
    have e0 : getItem items 0 = none := by
      unfold getItem
      rw [h0]
      rfl
    have e1 : getItem items 1 = some b := by
      unfold getItem
      rw [h1]
    rw [e0, e1]
    rfl
  · intro items h0 h1
    have e0 : getItem items 0 = some a := by
      unfold getItem
      rw [h0]
    have e1 : getItem items 1 = some a := by
      unfold getItem
      rw [h1]
      have h00 : items ⟨0, Nat.zero_lt_two⟩ = some a := h0
      rw [h00]
      rfl
    rw [e0, e1]
    rfl

/-- C7, witness: both halves of the amended statement at concrete items. -/
theorem getItem_fallback_witness :
    collateFn [getItem (fun i : Fin 2 => if i.val = 0 then none else some ⟨[5], 2⟩) 0,
        getItem (fun i : Fin 2 => if i.val = 0 then none else some ⟨[5], 2⟩) 1] =
      some ⟨[[5]], [2]⟩ ∧
    collateFn [getItem (fun i : Fin 2 => if i.val = 0 then some ⟨[9], 3⟩ else none) 0,
        getItem (fun i : Fin 2 => if i.val = 0 then some ⟨[9], 3⟩ else none) 1] =
      some ⟨[[9], [9]], [3, 3]⟩ :=
  ⟨(getItem_fallback ⟨[9], 3⟩ ⟨[5], 2⟩).1
      (fun i : Fin 2 => if i.val = 0 then none else some ⟨[5], 2⟩) rfl rfl,
   (getItem_fallback ⟨[9], 3⟩ ⟨[5], 2⟩).2
      (fun i : Fin 2 => if i.val = 0 then some ⟨[9], 3⟩ else none) rfl rfl⟩

/-- C8: when every sample in the batch failed, `collate_fn` returns `None`
("no data"); and a successful collate never produces a batch with a
zero-sized batch dimension. -/
theorem collateFn_empty_batch (examples : List (Option SampleItem))
    (h : ∀ x ∈ examples, x = (none : Option SampleItem)) :
    collateFn examples = none ∧
      ∀ (l : List (Option SampleItem)) (batch : CollatedBatch),
        collateFn l = some batch → batch.pixelValues ≠ [] ∧ batch.labels ≠ [] := by
  constructor
  · unfold collateFn
    have hnil : examples.filterMap id = [] := by
      rw [List.filterMap_eq_nil_iff]
      intro a ha
      rw [h a ha]
      rfl
    rw [hnil]
    rfl
  · intro l batch hbatch
    unfold collateFn at hbatch
    by_cases hl : (l.filterMap id).isEmpty
    · rw [if_pos hl] at hbatch
      exact absurd hbatch (by simp)
    · rw [if_neg hl] at hbatch
      have hne : l.filterMap id ≠ [] := by
        intro hcontr
        rw [hcontr] at hl
        exact hl rfl
      have := Option.some_injective _ hbatch
      rw [← this]
      constructor <;> simpa using hne

/-- C8, witness: a two-sample batch where both samples failed. -/
theorem collateFn_empty_batch_witness :
    collateFn [none, none] = none ∧
      ∀ (l : List (Option SampleItem)) (batch : CollatedBatch),
        collateFn l = some batch → batch.pixelValues ≠ [] ∧ batch.labels ≠ [] :=
  collateFn_empty_batch [none, none] (by decide)

/-! ## Label resolution (`VideoDataset.__init__` / `__getitem__`)

Strings are modelled as lists of character code points (`List ℕ`); the label
table's keys are ASCII, so Python's `str.lower()` and `str.title()` are
modelled by their ASCII behavior (`A`–`Z` is 65–90, `a`–`z` is 97–122). -/

/-- Python `str.lower()` on one ASCII code point. -/
def toLowerN (c : ℕ) : ℕ :=
  if 65 ≤ c ∧ c ≤ 90 then c + 32 else c

/-- Python `str.upper()` on one ASCII code point. -/
def toUpperN (c : ℕ) : ℕ :=
  if 97 ≤ c ∧ c ≤ 122 then c - 32 else c

/-- Whether a code point is an ASCII letter (cased character). -/
def isAlphaN (c : ℕ) : Bool :=
  decide ((65 ≤ c ∧ c ≤ 90) ∨ (97 ≤ c ∧ c ≤ 122))

/-- Python `str.title()`: a letter that starts a word (follows a non-letter
or the start) is uppercased, every other letter is lowercased, non-letters
pass through; the Boolean tracks whether the previous character was a
letter. -/
def titleAux : List ℕ → Bool → List ℕ
  | [], _ => []
  | c :: rest, prevCased =>
    (if isAlphaN c then (if prevCased then toLowerN c else toUpperN c) else c) ::
      titleAux rest (isAlphaN c)

/-- `s.title()` — `titleAux` started outside any word. -/
def pythonTitle (s : List ℕ) : List ℕ :=
  titleAux s false

/-- Code points of the key `Novice`. -/
def noviceKey : List ℕ := [78, 111, 118, 105, 99, 101]

/-- Code points of the key `Early Expert`. -/
def earlyExpertKey : List ℕ := [69, 97, 114, 108, 121, 32, 69, 120, 112, 101, 114, 116]

/-- Code points of the key `Intermediate Expert`. -/
def intermediateExpertKey : List ℕ :=
  [73, 110, 116, 101, 114, 109, 101, 100, 105, 97, 116, 101, 32,
   69, 120, 112, 101, 114, 116]

/-- Code points of the key `Late Expert`. -/
def lateExpertKey : List ℕ := [76, 97, 116, 101, 32, 69, 120, 112, 101, 114, 116]

/-- `self.labels.get(ann['proficiency_level'].title(), 0)` from `model.py`:
title-case the proficiency string, look it up in the four-class dictionary,
default to `0`. -/
def labelsGet (s : List ℕ) : ℕ :=
  if pythonTitle s = noviceKey then 0
  else if pythonTitle s = earlyExpertKey then 1
  else if pythonTitle s = intermediateExpertKey then 2
  else if pythonTitle s = lateExpertKey then 3
  else 0

/-- Modelled from the spec's words for comparison with `labelsGet`:
a *case-insensitive* match of the proficiency string against the four
classes, defaulting to class `0` when unrecognized. -/
def labelSpecGet (s : List ℕ) : ℕ :=
  if s.map toLowerN = noviceKey.map toLowerN then 0
  else if s.map toLowerN = earlyExpertKey.map toLowerN then 1
  else if s.map toLowerN = intermediateExpertKey.map toLowerN then 2
  else if s.map toLowerN = lateExpertKey.map toLowerN then 3
  else 0

lemma toLowerN_of_upper {c : ℕ} (h : 65 ≤ c ∧ c ≤ 90) : toLowerN c = c + 32 := by
  unfold toLowerN
  rw [if_pos h]

lemma toLowerN_of_not {c : ℕ} (h : ¬(65 ≤ c ∧ c ≤ 90)) : toLowerN c = c := by
  unfold toLowerN
  rw [if_neg h]

lemma toUpperN_of_lower {c : ℕ} (h : 97 ≤ c ∧ c ≤ 122) : toUpperN c = c - 32 := by
  unfold toUpperN
  rw [if_pos h]

lemma toUpperN_of_not {c : ℕ} (h : ¬(97 ≤ c ∧ c ≤ 122)) : toUpperN c = c := by
  unfold toUpperN
  rw [if_neg h]

lemma isAlphaN_toLowerN (c : ℕ) : isAlphaN (toLowerN c) = isAlphaN c := by
  by_cases h : 65 ≤ c ∧ c ≤ 90
  · rw [toLowerN_of_upper h]
    unfold isAlphaN
    rw [decide_eq_decide]
    omega
  · rw [toLowerN_of_not h]

lemma toLowerN_toLowerN (c : ℕ) : toLowerN (toLowerN c) = toLowerN c := by
  by_cases h : 65 ≤ c ∧ c ≤ 90
  · rw [toLowerN_of_upper h, toLowerN_of_not (by omega)]
  · rw [toLowerN_of_not h, toLowerN_of_not h]

lemma toLowerN_toUpperN (c : ℕ) : toLowerN (toUpperN c) = toLowerN c := by
  by_cases h : 97 ≤ c ∧ c ≤ 122
  · rw [toUpperN_of_lower h, toLowerN_of_upper (by omega), toLowerN_of_not (by omega)]
    omega
  · rw [toUpperN_of_not h]

lemma toUpperN_toLowerN (c : ℕ) : toUpperN (toLowerN c) = toUpperN c := by
  by_cases h : 65 ≤ c ∧ c ≤ 90
  · rw [toLowerN_of_upper h, toUpperN_of_lower (by omega), toUpperN_of_not (by omega)]
    omega
  · rw [toLowerN_of_not h]

lemma toLowerN_of_not_alpha {c : ℕ} (h : isAlphaN c = false) : toLowerN c = c := by
  apply toLowerN_of_not
  have := of_decide_eq_false h
  omega

lemma titleAux_map_toLowerN (s : List ℕ) :
    ∀ p, titleAux (s.map toLowerN) p = titleAux s p := by
  induction s with
  | nil => intro p; rfl
  | cons c rest ih =>
    intro p
    simp only [List.map_cons, titleAux]
    rw [isAlphaN_toLowerN]
    congr 1
    · by_cases ha : isAlphaN c = true
      · rw [if_pos ha, if_pos ha]
        cases p
        · rw [if_neg (by simp), if_neg (by simp)]
          exact toUpperN_toLowerN c
        · rw [if_pos rfl, if_pos rfl]
          exact toLowerN_toLowerN c
      · rw [if_neg ha, if_neg ha]
        exact toLowerN_of_not_alpha (Bool.not_eq_true _ ▸ ha)
    · exact ih _

lemma map_toLowerN_titleAux (s : List ℕ) :
    ∀ p, (titleAux s p).map toLowerN = s.map toLowerN := by
  induction s with
  | nil => intro p; rfl
  | cons c rest ih =>
    intro p
    simp only [titleAux, List.map_cons]
    congr 1
    · by_cases ha : isAlphaN c = true
      · rw [if_pos ha]
        cases p
        · rw [if_neg (by simp)]
          exact toLowerN_toUpperN c
        · rw [if_pos rfl]
          exact toLowerN_toLowerN c
      · rw [if_neg ha]
    · exact ih _

/-- A string title-cases to a title-cased key exactly when it matches the
key case-insensitively. -/
lemma pythonTitle_eq_iff (s K : List ℕ) (hK : pythonTitle K = K) :
    pythonTitle s = K ↔ s.map toLowerN = K.map toLowerN := by
  constructor
  · intro h
    calc s.map toLowerN = (titleAux s false).map toLowerN :=
          (map_toLowerN_titleAux s false).symm
      _ = K.map toLowerN := by rw [show titleAux s false = K from h]
  · intro h
    calc pythonTitle s = titleAux (s.map toLowerN) false :=
          (titleAux_map_toLowerN s false).symm
      _ = titleAux (K.map toLowerN) false := by rw [h]
      _ = pythonTitle K := titleAux_map_toLowerN K false
      _ = K := hK

/-- C9: label resolution is exactly a case-insensitive match against the
four classes (Novice→0, Early Expert→1, Intermediate Expert→2,
Late Expert→3) with default 0 — `.title()` followed by exact dictionary
lookup coincides with the case-insensitive lookup for these title-cased
keys; in particular `novice`→0, `LATE EXPERT`→3, `Intermediate Expert`→2
and `xyz`→0. -/
theorem labelsGet_case_insensitive :
    (∀ s : List ℕ, labelsGet s = labelSpecGet s) ∧
      labelsGet [110, 111, 118, 105, 99, 101] = 0 ∧
      labelsGet [76, 65, 84, 69, 32, 69, 88, 80, 69, 82, 84] = 3 ∧
      labelsGet intermediateExpertKey = 2 ∧
      labelsGet [120, 121, 122] = 0 := by
  refine ⟨?_, by decide, by decide, by decide, by decide⟩
  intro s
  unfold labelsGet labelSpecGet
  simp only [pythonTitle_eq_iff s noviceKey (by decide),
    pythonTitle_eq_iff s earlyExpertKey (by decide),
    pythonTitle_eq_iff s intermediateExpertKey (by decide),
    pythonTitle_eq_iff s lateExpertKey (by decide)]

/-! ## Annotation loading (`VideoDataset.__init__`) -/

/-- One parsed line of the annotation file: the two keys the loader checks
for, plus the unused `analysis` field; `none` models a missing key. -/
structure RawRecord where
  videoPaths : Option (List ℕ)
  proficiencyLevel : Option (List ℕ)
  analysis : Option (List ℕ)
deriving DecidableEq

/-- `all(k in json.loads(line) for k in ["video_paths", "proficiency_level"])`. -/
def hasRequiredKeys (r : RawRecord) : Bool :=
  r.videoPaths.isSome && r.proficiencyLevel.isSome

/-- The annotation-loading list comprehension in `VideoDataset.__init__`:
keep exactly the lines that contain both required keys.  (`self.annotations`
is never reassigned afterwards, so in this pure embedding the loaded list is
the dataset's annotation state for its whole lifetime.) -/
def loadAnnotations (lines : List RawRecord) : List RawRecord :=
  lines.filter hasRequiredKeys

/-- C10: every record missing a required key is dropped at construction:
each loaded record has both keys present, the dataset length counts exactly
the lines with both keys, and the loaded list is a sublist of the input
(no record is invented or duplicated). -/
theorem loadAnnotations_spec (lines : List RawRecord) :
    (∀ r ∈ loadAnnotations lines,
        r.videoPaths.isSome = true ∧ r.proficiencyLevel.isSome = true) ∧
      (loadAnnotations lines).length = lines.countP hasRequiredKeys ∧
      (loadAnnotations lines).Sublist lines := by
  refine ⟨?_, ?_, List.filter_sublist _⟩
  · intro r hr
    have hmem := List.of_mem_filter hr
    unfold hasRequiredKeys at hmem
    simp only [Bool.and_eq_true] at hmem
    exact hmem
  · exact (List.countP_eq_length_filter _ _).symm

/-- A record with both required keys, for the C10 witness. -/
def recA : RawRecord := ⟨some [1], some [2], none⟩

/-- A record missing `proficiency_level`, for the C10 witness. -/
def recB : RawRecord := ⟨some [1], none, none⟩

/-- C10, witness: the loaded list of `[recA, recB]` keeps exactly `recA`. -/
theorem loadAnnotations_spec_witness :
    (recA.videoPaths.isSome = true ∧ recA.proficiencyLevel.isSome = true) ∧
      ((loadAnnotations [recA, recB]).length = [recA, recB].countP hasRequiredKeys ∧
        (loadAnnotations [recA, recB]).Sublist [recA, recB]) :=
  ⟨(loadAnnotations_spec [recA, recB]).1 recA (by decide),
   (loadAnnotations_spec [recA, recB]).2.1,
   (loadAnnotations_spec [recA, recB]).2.2⟩

end SkillFormer
